import Mathlib

/-!
# Verification of the CSV-to-Excel product conversion pipeline

Shallow embedding of `product-price-php-exporter/Version1/csv-to-excel-inpu.py`:
the record data model (`ProductRecord`), name normalization and duplicate
detection (`DuplicateDetector`), the CSV reader (`read_records`,
`detect_column_count`), the Excel writer (`ExcelWriter`), and the conversion
driver (`CSVToExcelConverter.convert` / `_process_records`), modelled here as
`processStep` / `processList` / `convert`.

Python strings are modelled as `List Char`.  The Unicode character tables used
by the interpreter (the whitespace class of `str.strip` / `str.split`, the
`unicodedata.normalize('NFKC', ...)` mapping, and the `str.lower` mapping) are
external library data, modelled by the parameter structure `PyUnicode`; all
pipeline definitions are parameterized over it.  The float-valued timing field
`processing_time_seconds` of the statistics object is omitted (wall-clock time
is not modellable and no property refers to it).
-/

/-- A Python string, modelled as its list of characters. -/
abbrev Str := List Char

/-- The Unicode character tables supplied by the Python runtime:
`isSpace` is the whitespace class used by `str.strip()` and `str.split()`,
`nfkc` is `unicodedata.normalize('NFKC', s)`, and `lowerChar` is the per
character mapping of `str.lower()` (a character may lower to several
characters).  `nfkc_nil` records the library fact `normalize('NFKC', '') = ''`. -/
structure PyUnicode where
  isSpace : Char → Bool
  nfkc : Str → Str
  lowerChar : Char → Str
  nfkc_nil : nfkc [] = []

/-- Remove the trailing run of characters satisfying `p` (helper for `strip`). -/
def dropTrail (p : Char → Bool) (l : Str) : Str :=
  (l.reverse.dropWhile p).reverse

/-- Python `s.strip()`: remove leading and trailing whitespace. -/
def pyStrip (U : PyUnicode) (s : Str) : Str :=
  dropTrail U.isSpace (s.dropWhile U.isSpace)

/-- Worker for `pySplit`: accumulates the current word (reversed). -/
def pySplitAux (U : PyUnicode) : Str → Str → List Str
  | [], acc => if acc = [] then [] else [acc.reverse]
  | c :: rest, acc =>
    if U.isSpace c then
      if acc = [] then pySplitAux U rest []
      else acc.reverse :: pySplitAux U rest []
    else pySplitAux U rest (c :: acc)

/-- Python `s.split()` with no separator: split on runs of whitespace,
discarding empty pieces. -/
def pySplit (U : PyUnicode) (s : Str) : List Str :=
  pySplitAux U s []

/-- Python `' '.join(words)`. -/
def joinSpace : List Str → Str
  | [] => []
  | [w] => w
  | w :: ws => w ++ ' ' :: joinSpace ws

/-- `ProductRecord.normalize_name` at the string level: strip surrounding
whitespace, apply NFKC, lowercase, collapse internal whitespace runs to a
single space (`' '.join(s.split())`). -/
def normalizeName (U : PyUnicode) (s : Str) : Str :=
  if s.isEmpty then []
  else joinSpace (pySplit U (((U.nfkc (pyStrip U s)).map U.lowerChar).flatten))

/-- `ProductRecord` from the source: a single product row. -/
structure ProductRecord where
  product_name : Str
  price : Str
  category : Str := []
  row_number : Nat := 0
  deriving DecidableEq

/-- `ProductRecord.is_valid`: the record has a non-empty name after trimming. -/
def ProductRecord.is_valid (r : ProductRecord) (U : PyUnicode) : Bool :=
  !(pyStrip U r.product_name).isEmpty

/-- `ProductRecord.normalize_name`: canonical key of the record's name. -/
def ProductRecord.normalize_name (r : ProductRecord) (U : PyUnicode) : Str :=
  normalizeName U r.product_name

/-- `ConversionStatistics` (the float timing field is omitted, see the file
header). -/
structure ConversionStatistics where
  total_rows_read : Nat := 0
  empty_rows_skipped : Nat := 0
  invalid_rows_skipped : Nat := 0
  duplicate_rows_skipped : Nat := 0
  unique_products_written : Nat := 0
  columns_detected : Nat := 0
  deriving DecidableEq

/-- `DuplicateDetector`: the seen-set of canonical keys (the Python `set` is
modelled as a list into which a key is only ever inserted when absent) and the
running duplicate count. -/
structure DuplicateDetector where
  seen_products : List Str := []
  duplicate_count : Nat := 0
  deriving DecidableEq

/-- `DuplicateDetector.is_duplicate`: returns the verdict together with the
updated detector state (the Python method mutates `self`). -/
def DuplicateDetector.is_duplicate (d : DuplicateDetector) (U : PyUnicode)
    (r : ProductRecord) : Bool × DuplicateDetector :=
  let normalized_name := r.normalize_name U
  if normalized_name.isEmpty then (false, d)
  else if normalized_name ∈ d.seen_products then
    (true, { d with duplicate_count := d.duplicate_count + 1 })
  else
    (false, { d with seen_products := normalized_name :: d.seen_products })

/-- `Config.MAX_EXCEL_ROWS`. -/
def MAX_EXCEL_ROWS : Nat := 1048576

/-- One data row of the output worksheet: column 1 (name), column 2 (price),
and column 3 (category), which is only populated when the writer has at least
three columns and the category is non-empty. -/
structure WrittenRow where
  col1 : Str
  col2 : Str
  col3 : Option Str
  deriving DecidableEq

/-- `ExcelWriter`: the in-memory workbook.  `rows` are the data rows written so
far; `current_row` starts at 2 because row 1 holds the fixed headers. -/
structure ExcelWriter where
  column_count : Nat
  rows : List WrittenRow
  current_row : Nat
  deriving DecidableEq

/-- `ExcelWriter.__init__`. -/
def ExcelWriter.init (column_count : Nat) : ExcelWriter :=
  { column_count := column_count, rows := [], current_row := 2 }

/-- `ExcelWriter.write_record`: raises once `current_row` exceeds
`MAX_EXCEL_ROWS`; otherwise appends the cells of the record and advances. -/
def ExcelWriter.write_record (w : ExcelWriter) (r : ProductRecord) :
    Except String ExcelWriter :=
  if MAX_EXCEL_ROWS < w.current_row then
    .error "Excel row limit reached"
  else
    .ok { w with
      rows := w.rows ++
        [{ col1 := r.product_name, col2 := r.price,
           col3 := if 3 ≤ w.column_count ∧ ¬r.category.isEmpty
                   then some r.category else none }],
      current_row := w.current_row + 1 }

/-- `ExcelWriter.get_rows_written`: `current_row - 2`. -/
def ExcelWriter.get_rows_written (w : ExcelWriter) : Nat :=
  w.current_row - 2

/-- Parsing of one raw CSV row inside `CSVReader.read_records`: a zero-field
row yields an all-empty record; otherwise each present field is stripped and
missing trailing fields default to the empty string. -/
def parse_row (U : PyUnicode) (n : Nat) (row : List Str) : ProductRecord :=
  if row.isEmpty then
    { product_name := [], price := [], category := [], row_number := n }
  else
    { product_name := if 1 ≤ row.length then pyStrip U (row.getD 0 []) else [],
      price := if 2 ≤ row.length then pyStrip U (row.getD 1 []) else [],
      category := if 3 ≤ row.length then pyStrip U (row.getD 2 []) else [],
      row_number := n }

/-- The reading loop of `CSVReader.read_records`, carrying the running
`row_number`. -/
def read_rows (U : PyUnicode) : Nat → List (List Str) → List ProductRecord
  | _, [] => []
  | n, row :: rest => parse_row U n row :: read_rows U (n + 1) rest

/-- `CSVReader.read_records`: optionally skip the header row, then parse the
remaining rows with row numbers starting at 2 (resp. 1). -/
def read_records (U : PyUnicode) (rows : List (List Str)) (skip_header : Bool) :
    List ProductRecord :=
  if skip_header then read_rows U 2 (rows.drop 1) else read_rows U 1 rows

/-- `CSVReader.detect_column_count`: count the non-blank cells of the first
row and clamp to a minimum of 2; return 2 when there is no first row or it is
empty. -/
def detect_column_count (U : PyUnicode) (rows : List (List Str)) : Nat :=
  match rows with
  | [] => 2
  | first_row :: _ =>
    if first_row.isEmpty then 2
    else max ((first_row.filter (fun col => !(pyStrip U col).isEmpty)).length) 2

/-- The mutable state of `CSVToExcelConverter._process_records`: the statistics
object, the duplicate detector, and the Excel writer. -/
structure ProcState where
  stats : ConversionStatistics
  detector : DuplicateDetector
  writer : ExcelWriter
  deriving DecidableEq

/-- One iteration of the loop body of `CSVToExcelConverter._process_records`. -/
def processStep (U : PyUnicode) (st : ProcState) (r : ProductRecord) :
    Except String ProcState :=
  let stats1 :=
    { st.stats with total_rows_read := st.stats.total_rows_read + 1 }
  if r.product_name.isEmpty && r.price.isEmpty then
    .ok { st with stats :=
      { stats1 with empty_rows_skipped := stats1.empty_rows_skipped + 1 } }
  else if !(r.is_valid U) then
    .ok { st with stats :=
      { stats1 with invalid_rows_skipped := stats1.invalid_rows_skipped + 1 } }
  else
    match st.detector.is_duplicate U r with
    | (true, d) => .ok { st with stats := stats1, detector := d }
    | (false, d) =>
      match st.writer.write_record r with
      | .error e => .error e
      | .ok w => .ok { stats := stats1, detector := d, writer := w }

/-- The loop of `_process_records` over the record sequence. -/
def processList (U : PyUnicode) : ProcState → List ProductRecord →
    Except String ProcState
  | st, [] => .ok st
  | st, r :: rs =>
    match processStep U st r with
    | .error e => .error e
    | .ok st1 => processList U st1 rs

/-- `CSVToExcelConverter._process_records`: run the loop from fresh statistics
and a fresh duplicate detector. -/
def processRecords (U : PyUnicode) (recs : List ProductRecord)
    (w : ExcelWriter) : Except String ProcState :=
  processList U { stats := {}, detector := {}, writer := w } recs

/-- The observable result of a successful `convert` run: the final statistics
and the saved worksheet data rows. -/
structure ConvertOutput where
  statistics : ConversionStatistics
  sheet : List WrittenRow
  deriving DecidableEq

/-- `CSVToExcelConverter.convert`: detect the column count, read and process
the records, then save.  An error raised while writing propagates and no
output document exists (`.error` carries no sheet); on success the statistics
are finalized from the writer and the detector exactly as in the source. -/
def convert (U : PyUnicode) (rows : List (List Str)) :
    Except String ConvertOutput :=
  let columns_detected := detect_column_count U rows
  let records := read_records U rows true
  match processRecords U records (ExcelWriter.init columns_detected) with
  | .error e => .error e
  | .ok st =>
    .ok { statistics :=
            { st.stats with
              unique_products_written := st.writer.get_rows_written,
              duplicate_rows_skipped := st.detector.duplicate_count,
              columns_detected := columns_detected },
          sheet := st.writer.rows }

/-! ## Specification-level trace of the filter

`classify` restates the branch structure of the `_process_records` loop body
as a single-record classification given the current seen-set; `outcomes`,
`finalSeen` and `admittedList` unfold the loop into an outcome trace.  The
correspondence with `processStep` / `processList` is proved below. -/

/-- Outcome of the filter for one record. -/
inductive Outcome where
  | blank
  | invalid
  | duplicate
  | admitted
  deriving DecidableEq

/-- Classification of one record given the current seen-set, mirroring the
branch structure of the `_process_records` loop body. -/
def classify (U : PyUnicode) (seen : List Str) (r : ProductRecord) : Outcome :=
  if r.product_name.isEmpty && r.price.isEmpty then .blank
  else if !(r.is_valid U) then .invalid
  else if ¬(r.normalize_name U).isEmpty ∧ r.normalize_name U ∈ seen then
    .duplicate
  else .admitted

/-- The seen-set after one record: an admitted record with a non-empty
canonical key inserts its key; every other record leaves it unchanged. -/
def seenAfter (U : PyUnicode) (seen : List Str) (r : ProductRecord) :
    List Str :=
  match classify U seen r with
  | .admitted =>
    if (r.normalize_name U).isEmpty then seen else r.normalize_name U :: seen
  | _ => seen

/-- Outcome trace of a record sequence. -/
def outcomes (U : PyUnicode) : List Str → List ProductRecord → List Outcome
  | _, [] => []
  | seen, r :: rs => classify U seen r :: outcomes U (seenAfter U seen r) rs

/-- The seen-set after a whole record sequence. -/
def finalSeen (U : PyUnicode) : List Str → List ProductRecord → List Str
  | seen, [] => seen
  | seen, r :: rs => finalSeen U (seenAfter U seen r) rs

/-- The subsequence of records the filter admits. -/
def admittedList (U : PyUnicode) : List Str → List ProductRecord →
    List ProductRecord
  | _, [] => []
  | seen, r :: rs =>
    match classify U seen r with
    | .admitted => r :: admittedList U (seenAfter U seen r) rs
    | _ => admittedList U (seenAfter U seen r) rs

/-- The worksheet row `write_record` produces for a record, given the writer's
column count. -/
def writtenOf (column_count : Nat) (r : ProductRecord) : WrittenRow :=
  { col1 := r.product_name, col2 := r.price,
    col3 := if 3 ≤ column_count ∧ ¬r.category.isEmpty
            then some r.category else none }

/-- Number of occurrences of an outcome in a trace. -/
def countOut (o : Outcome) : List Outcome → Nat
  | [] => 0
  | x :: l => (if x = o then 1 else 0) + countOut o l

/-- Serialization of a worksheet data row back into a raw CSV row (used to
feed the output of one run into a second run). -/
def rowOfWritten (w : WrittenRow) : List Str :=
  match w.col3 with
  | some c => [w.col1, w.col2, c]
  | none => [w.col1, w.col2]

/-- The state of `_process_records` after a successful run over `recs`,
expressed through the trace functions. -/
def endState (U : PyUnicode) (st : ProcState) (recs : List ProductRecord) :
    ProcState :=
  { stats :=
      { st.stats with
        total_rows_read := st.stats.total_rows_read + recs.length,
        empty_rows_skipped := st.stats.empty_rows_skipped +
          countOut .blank (outcomes U st.detector.seen_products recs),
        invalid_rows_skipped := st.stats.invalid_rows_skipped +
          countOut .invalid (outcomes U st.detector.seen_products recs) },
    detector :=
      { seen_products := finalSeen U st.detector.seen_products recs,
        duplicate_count := st.detector.duplicate_count +
          countOut .duplicate (outcomes U st.detector.seen_products recs) },
    writer :=
      { column_count := st.writer.column_count,
        rows := st.writer.rows ++
          (admittedList U st.detector.seen_products recs).map
            (writtenOf st.writer.column_count),
        current_row := st.writer.current_row +
          (admittedList U st.detector.seen_products recs).length } }

/-! ## Correspondence between the loop and the trace -/

theorem processStep_eq (U : PyUnicode) (st : ProcState) (r : ProductRecord) :
    processStep U st r =
      match classify U st.detector.seen_products r with
      | .blank => .ok { st with stats :=
          { st.stats with
            total_rows_read := st.stats.total_rows_read + 1,
            empty_rows_skipped := st.stats.empty_rows_skipped + 1 } }
      | .invalid => .ok { st with stats :=
          { st.stats with
            total_rows_read := st.stats.total_rows_read + 1,
            invalid_rows_skipped := st.stats.invalid_rows_skipped + 1 } }
      | .duplicate => .ok { st with
          stats := { st.stats with
            total_rows_read := st.stats.total_rows_read + 1 },
          detector := { st.detector with
            duplicate_count := st.detector.duplicate_count + 1 } }
      | .admitted =>
        match st.writer.write_record r with
        | .error e => .error e
        | .ok w => .ok
            { stats := { st.stats with
                total_rows_read := st.stats.total_rows_read + 1 },
              detector := { st.detector with
                seen_products := seenAfter U st.detector.seen_products r },
              writer := w } := by
  by_cases h1 : (r.product_name.isEmpty && r.price.isEmpty) = true
  · simp [processStep, classify, h1]
  · by_cases h2 : (!(r.is_valid U)) = true
    · simp [processStep, classify, h1, h2]
    · by_cases h3 : (r.normalize_name U).isEmpty = true
      · have hc : classify U st.detector.seen_products r = .admitted := by
          simp [classify, h1, h2, h3]
        simp [processStep, DuplicateDetector.is_duplicate, h1, h2, h3, hc,
          seenAfter]
      · by_cases h4 : r.normalize_name U ∈ st.detector.seen_products
        · have hc : classify U st.detector.seen_products r = .duplicate := by
            simp [classify, h1, h2, h3, h4]
          simp [processStep, DuplicateDetector.is_duplicate, h1, h2, h3, h4, hc]
        · have hc : classify U st.detector.seen_products r = .admitted := by
            simp [classify, h1, h2, h3, h4]
          simp [processStep, DuplicateDetector.is_duplicate, h1, h2, h3, h4,
            hc, seenAfter]

theorem seenAfter_not_admitted (U : PyUnicode) (seen : List Str)
    (r : ProductRecord) (h : classify U seen r ≠ .admitted) :
    seenAfter U seen r = seen := by
  unfold seenAfter
  cases hc : classify U seen r <;> simp_all

theorem processList_ok_eq (U : PyUnicode) (recs : List ProductRecord) :
    ∀ st : ProcState,
      st.writer.current_row +
        (admittedList U st.detector.seen_products recs).length ≤
        MAX_EXCEL_ROWS + 1 →
      processList U st recs = .ok (endState U st recs) := by
  induction recs with
  | nil =>
    intro st h
    simp [processList, endState, outcomes, countOut, admittedList, finalSeen]
  | cons r rs ih =>
    intro st h
    rw [processList, processStep_eq]
    cases hc : classify U st.detector.seen_products r with
    | blank =>
      have hs := seenAfter_not_admitted U st.detector.seen_products r
        (by simp [hc])
      have hcap : st.writer.current_row +
          (admittedList U st.detector.seen_products (r :: rs)).length ≤
          MAX_EXCEL_ROWS + 1 := h
      rw [admittedList, hc] at hcap
      simp only []
      rw [ih _ (by simpa [hs] using hcap)]
      simp [endState, outcomes, admittedList, finalSeen, hc, hs, countOut,
        Nat.add_assoc, Nat.add_comm, Nat.add_left_comm]
    | invalid =>
      have hs := seenAfter_not_admitted U st.detector.seen_products r
        (by simp [hc])
      have hcap : st.writer.current_row +
          (admittedList U st.detector.seen_products (r :: rs)).length ≤
          MAX_EXCEL_ROWS + 1 := h
      rw [admittedList, hc] at hcap
      simp only []
      rw [ih _ (by simpa [hs] using hcap)]
      simp [endState, outcomes, admittedList, finalSeen, hc, hs, countOut,
        Nat.add_assoc, Nat.add_comm, Nat.add_left_comm]
    | duplicate =>
      have hs := seenAfter_not_admitted U st.detector.seen_products r
        (by simp [hc])
      have hcap : st.writer.current_row +
          (admittedList U st.detector.seen_products (r :: rs)).length ≤
          MAX_EXCEL_ROWS + 1 := h
      rw [admittedList, hc] at hcap
      simp only []
      rw [ih _ (by simpa [hs] using hcap)]
      simp [endState, outcomes, admittedList, finalSeen, hc, hs, countOut,
        Nat.add_assoc, Nat.add_comm, Nat.add_left_comm]
    | admitted =>
      have hcap : st.writer.current_row +
          (r :: admittedList U (seenAfter U st.detector.seen_products r)
            rs).length ≤ MAX_EXCEL_ROWS + 1 := by
        have := h
        rwa [admittedList, hc] at this
      have hwle : ¬ MAX_EXCEL_ROWS < st.writer.current_row := by
        simp only [List.length_cons] at hcap
        omega
      rw [ExcelWriter.write_record]
      simp only [hwle, if_false]
      rw [ih _ (by
        simp only [List.length_cons] at hcap
        simpa using (by omega :
          st.writer.current_row + 1 +
            (admittedList U (seenAfter U st.detector.seen_products r)
              rs).length ≤ MAX_EXCEL_ROWS + 1))]
      simp [endState, outcomes, admittedList, finalSeen, hc, countOut,
        Nat.add_assoc, Nat.add_comm, Nat.add_left_comm, List.append_assoc,
        writtenOf]

theorem processList_err (U : PyUnicode) (recs : List ProductRecord) :
    ∀ st : ProcState,
      st.writer.current_row ≤ MAX_EXCEL_ROWS + 1 →
      MAX_EXCEL_ROWS + 1 < st.writer.current_row +
        (admittedList U st.detector.seen_products recs).length →
      ∃ e, processList U st recs = .error e := by
  induction recs with
  | nil =>
    intro st h0 h
    simp [admittedList] at h
    omega
  | cons r rs ih =>
    intro st h0 h
    rw [processList, processStep_eq]
    cases hc : classify U st.detector.seen_products r with
    | blank =>
      have hs := seenAfter_not_admitted U st.detector.seen_products r
        (by simp [hc])
      rw [admittedList, hc, hs] at h
      simp only []
      exact ih _ h0 h
    | invalid =>
      have hs := seenAfter_not_admitted U st.detector.seen_products r
        (by simp [hc])
      rw [admittedList, hc, hs] at h
      simp only []
      exact ih _ h0 h
    | duplicate =>
      have hs := seenAfter_not_admitted U st.detector.seen_products r
        (by simp [hc])
      rw [admittedList, hc, hs] at h
      simp only []
      exact ih _ h0 h
    | admitted =>
      rw [admittedList, hc] at h
      simp only [List.length_cons] at h
      by_cases hw : MAX_EXCEL_ROWS < st.writer.current_row
      · rw [ExcelWriter.write_record]
        simp only [hw, if_true]
        exact ⟨"Excel row limit reached", rfl⟩
      · rw [ExcelWriter.write_record]
        simp only [hw, if_false]
        exact ih _ (by simp; omega) (by simp; omega)

/-- The initial state of a `convert` run, given the detected column count. -/
def initState (column_count : Nat) : ProcState :=
  ⟨{}, {}, ExcelWriter.init column_count⟩

/-- Characterization of every successful `convert` run: the final statistics
and the saved sheet expressed through the trace functions, together with the
capacity bound the run had to satisfy. -/
theorem convert_ok_char (U : PyUnicode) (rows : List (List Str))
    (out : ConvertOutput) (h : convert U rows = .ok out) :
    out = { statistics :=
              { total_rows_read := (read_records U rows true).length,
                empty_rows_skipped :=
                  countOut .blank (outcomes U [] (read_records U rows true)),
                invalid_rows_skipped :=
                  countOut .invalid (outcomes U [] (read_records U rows true)),
                duplicate_rows_skipped :=
                  countOut .duplicate
                    (outcomes U [] (read_records U rows true)),
                unique_products_written :=
                  (admittedList U [] (read_records U rows true)).length,
                columns_detected := detect_column_count U rows },
            sheet := (admittedList U [] (read_records U rows true)).map
              (writtenOf (detect_column_count U rows)) } ∧
      2 + (admittedList U [] (read_records U rows true)).length ≤
        MAX_EXCEL_ROWS + 1 := by
  rw [convert, processRecords] at h
  by_cases hcap : 2 + (admittedList U [] (read_records U rows true)).length ≤
      MAX_EXCEL_ROWS + 1
  · refine ⟨?_, hcap⟩
    have hok := processList_ok_eq U (read_records U rows true)
      (initState (detect_column_count U rows)) (by
        simpa [initState, ExcelWriter.init] using hcap)
    rw [show (⟨{}, {}, ExcelWriter.init (detect_column_count U rows)⟩ :
          ProcState) = initState (detect_column_count U rows) from rfl,
        hok] at h
    simp only [Except.ok.injEq] at h
    subst h
    simp [endState, initState, ExcelWriter.init, ExcelWriter.get_rows_written]
  · exfalso
    obtain ⟨e, he⟩ := processList_err U (read_records U rows true)
      (initState (detect_column_count U rows)) (by
        simp [initState, ExcelWriter.init, MAX_EXCEL_ROWS])
      (by simp only [initState, ExcelWriter.init]; omega)
    rw [show (⟨{}, {}, ExcelWriter.init (detect_column_count U rows)⟩ :
          ProcState) = initState (detect_column_count U rows) from rfl,
        he] at h
    exact Except.noConfusion h

/-! ## Facts about the classification trace -/

theorem normalizeName_nil_of_strip_nil (U : PyUnicode) (s : Str)
    (h : pyStrip U s = []) : normalizeName U s = [] := by
  unfold normalizeName
  split
  · rfl
  · rw [h, U.nfkc_nil]
    simp [pySplit, pySplitAux, joinSpace]

theorem name_ne_nil_of_key_ne_nil (U : PyUnicode) (r : ProductRecord)
    (h : r.normalize_name U ≠ []) : r.product_name ≠ [] := by
  intro hn
  apply h
  unfold ProductRecord.normalize_name normalizeName
  simp [hn]

theorem strip_ne_nil_of_key_ne_nil (U : PyUnicode) (r : ProductRecord)
    (h : r.normalize_name U ≠ []) : pyStrip U r.product_name ≠ [] := by
  intro hn
  exact h (normalizeName_nil_of_strip_nil U r.product_name hn)

theorem classify_dup_of_mem (U : PyUnicode) (seen : List Str)
    (r : ProductRecord) (hne : r.normalize_name U ≠ [])
    (hmem : r.normalize_name U ∈ seen) : classify U seen r = .duplicate := by
  unfold classify
  have h1 : r.product_name.isEmpty = false := by
    simp [List.isEmpty_iff]
    exact name_ne_nil_of_key_ne_nil U r hne
  have h2 : r.is_valid U = true := by
    unfold ProductRecord.is_valid
    simp [List.isEmpty_iff]
    exact strip_ne_nil_of_key_ne_nil U r hne
  simp [h1, h2, List.isEmpty_iff, hne, hmem]

theorem classify_dup_elim (U : PyUnicode) (seen : List Str)
    (r : ProductRecord) (h : classify U seen r = .duplicate) :
    r.normalize_name U ≠ [] ∧ r.normalize_name U ∈ seen := by
  unfold classify at h
  split at h
  · exact Outcome.noConfusion h
  · split at h
    · exact Outcome.noConfusion h
    · split at h
      · rename_i hcond
        simpa [List.isEmpty_iff] using hcond
      · exact Outcome.noConfusion h

theorem mem_seenAfter (U : PyUnicode) (seen : List Str) (r : ProductRecord)
    (a : Str) (h : a ∈ seen) : a ∈ seenAfter U seen r := by
  unfold seenAfter
  cases classify U seen r <;> simp [h]
  split <;> simp [h]

theorem key_mem_seenAfter_of_admitted (U : PyUnicode) (seen : List Str)
    (r : ProductRecord) (hc : classify U seen r = .admitted)
    (hne : r.normalize_name U ≠ []) :
    r.normalize_name U ∈ seenAfter U seen r := by
  unfold seenAfter
  rw [hc]
  simp [List.isEmpty_iff, hne]

theorem outcomes_dup_of_mem (U : PyUnicode) :
    ∀ (recs : List ProductRecord) (seen : List Str) (j : Nat)
      (rj : ProductRecord), recs[j]? = some rj →
      rj.normalize_name U ≠ [] → rj.normalize_name U ∈ seen →
      (outcomes U seen recs)[j]? = some .duplicate := by
  intro recs
  induction recs with
  | nil => intro seen j rj hj; simp at hj
  | cons r rs ih =>
    intro seen j rj hj hne hmem
    cases j with
    | zero =>
      simp only [List.getElem?_cons_zero, Option.some.injEq] at hj
      subst hj
      rw [outcomes]
      simp only [List.getElem?_cons_zero, Option.some.injEq]
      exact classify_dup_of_mem U seen r hne hmem
    | succ j =>
      simp only [List.getElem?_cons_succ] at hj
      rw [outcomes]
      simp only [List.getElem?_cons_succ]
      exact ih (seenAfter U seen r) j rj hj hne
        (mem_seenAfter U seen r _ hmem)

theorem outcomes_later_dup (U : PyUnicode) :
    ∀ (recs : List ProductRecord) (seen : List Str) (i j : Nat)
      (ri rj : ProductRecord), i < j →
      recs[i]? = some ri → recs[j]? = some rj →
      ri.normalize_name U = rj.normalize_name U →
      rj.normalize_name U ≠ [] →
      (outcomes U seen recs)[i]? = some .admitted →
      (outcomes U seen recs)[j]? = some .duplicate := by
  intro recs
  induction recs with
  | nil => intro seen i j ri rj _ hi; simp at hi
  | cons r rs ih =>
    intro seen i j ri rj hij hi hj hkey hne hadm
    cases i with
    | zero =>
      simp only [List.getElem?_cons_zero, Option.some.injEq] at hi
      subst hi
      obtain ⟨j', rfl⟩ : ∃ j', j = j' + 1 := by
        cases j with
        | zero => omega
        | succ j' => exact ⟨j', rfl⟩
      simp only [List.getElem?_cons_succ] at hj
      rw [outcomes] at hadm ⊢
      simp only [List.getElem?_cons_zero, Option.some.injEq] at hadm
      simp only [List.getElem?_cons_succ]
      have hmem : rj.normalize_name U ∈ seenAfter U seen r := by
        rw [← hkey]
        exact key_mem_seenAfter_of_admitted U seen r hadm
          (by rw [hkey]; exact hne)
      exact outcomes_dup_of_mem U rs (seenAfter U seen r) j' rj hj hne hmem
    | succ i' =>
      obtain ⟨j', rfl⟩ : ∃ j', j = j' + 1 := by
        cases j with
        | zero => omega
        | succ j' => exact ⟨j', rfl⟩
      simp only [List.getElem?_cons_succ] at hi hj
      rw [outcomes] at hadm ⊢
      simp only [List.getElem?_cons_succ] at hadm ⊢
      exact ih (seenAfter U seen r) i' j' ri rj (by omega) hi hj hkey hne hadm

theorem outcomes_dup_earlier (U : PyUnicode) :
    ∀ (recs : List ProductRecord) (seen : List Str) (j : Nat)
      (rj : ProductRecord), recs[j]? = some rj →
      (outcomes U seen recs)[j]? = some .duplicate →
      rj.normalize_name U ∈ seen ∨
        ∃ i ri, i < j ∧ recs[i]? = some ri ∧
          (outcomes U seen recs)[i]? = some .admitted ∧
          ri.normalize_name U = rj.normalize_name U := by
  intro recs
  induction recs with
  | nil => intro seen j rj hj; simp at hj
  | cons r rs ih =>
    intro seen j rj hj hdup
    cases j with
    | zero =>
      simp only [List.getElem?_cons_zero, Option.some.injEq] at hj
      subst hj
      rw [outcomes] at hdup
      simp only [List.getElem?_cons_zero, Option.some.injEq] at hdup
      exact Or.inl (classify_dup_elim U seen r hdup).2
    | succ j' =>
      simp only [List.getElem?_cons_succ] at hj
      rw [outcomes] at hdup
      simp only [List.getElem?_cons_succ] at hdup
      rcases ih (seenAfter U seen r) j' rj hj hdup with hmem | ⟨i, ri, hlt, hi, hadm, hkeq⟩
      · unfold seenAfter at hmem
        cases hc : classify U seen r with
        | admitted =>
          rw [hc] at hmem
          by_cases hke : (r.normalize_name U).isEmpty
          · rw [if_pos hke] at hmem
            exact Or.inl hmem
          · rw [if_neg hke] at hmem
            rcases List.mem_cons.mp hmem with heq | hmem'
            · refine Or.inr ⟨0, r, Nat.succ_pos j', by simp, ?_, heq.symm⟩
              rw [outcomes]
              simp [hc]
            · exact Or.inl hmem'
        | blank => rw [hc] at hmem; exact Or.inl hmem
        | invalid => rw [hc] at hmem; exact Or.inl hmem
        | duplicate => rw [hc] at hmem; exact Or.inl hmem
      · refine Or.inr ⟨i + 1, ri, by omega, by simpa using hi, ?_, hkeq⟩
        rw [outcomes]
        simpa using hadm

theorem length_eq_counts (U : PyUnicode) :
    ∀ (recs : List ProductRecord) (seen : List Str),
      recs.length =
        countOut .blank (outcomes U seen recs) +
        countOut .invalid (outcomes U seen recs) +
        countOut .duplicate (outcomes U seen recs) +
        (admittedList U seen recs).length := by
  intro recs
  induction recs with
  | nil => intro seen; simp [outcomes, countOut, admittedList]
  | cons r rs ih =>
    intro seen
    rw [outcomes, admittedList]
    cases hc : classify U seen r <;>
      simp only [countOut, List.length_cons, hc] <;>
      (try rw [ih (seenAfter U seen r)]) <;> simp <;> omega

theorem admittedList_sublist (U : PyUnicode) :
    ∀ (recs : List ProductRecord) (seen : List Str),
      List.Sublist (admittedList U seen recs) recs := by
  intro recs
  induction recs with
  | nil => intro seen; simp [admittedList]
  | cons r rs ih =>
    intro seen
    rw [admittedList]
    cases classify U seen r with
    | admitted => exact List.Sublist.cons₂ r (ih (seenAfter U seen r))
    | blank => exact List.Sublist.cons r (ih (seenAfter U seen r))
    | invalid => exact List.Sublist.cons r (ih (seenAfter U seen r))
    | duplicate => exact List.Sublist.cons r (ih (seenAfter U seen r))

/-! ## Facts about `pyStrip` -/

theorem dropWhile_head_false (p : Char → Bool) :
    ∀ (l : Str) (c : Char) (t : Str), l.dropWhile p = c :: t → p c = false := by
  intro l
  induction l with
  | nil => intro c t h; simp at h
  | cons a l ih =>
    intro c t h
    rw [List.dropWhile_cons] at h
    split at h
    · exact ih c t h
    · rename_i ha
      simp only [List.cons.injEq] at h
      obtain ⟨rfl, rfl⟩ := h
      simpa using ha

theorem dropTrail_append_eq (p : Char → Bool) (l : Str) :
    ∃ u, dropTrail p l ++ u = l := by
  have h : l.reverse.dropWhile p <:+ l.reverse := List.dropWhile_suffix p
  obtain ⟨u, hu⟩ := h
  refine ⟨u.reverse, ?_⟩
  calc dropTrail p l ++ u.reverse
      = (l.reverse.dropWhile p).reverse ++ u.reverse := rfl
    _ = (u ++ l.reverse.dropWhile p).reverse := by rw [List.reverse_append]
    _ = l.reverse.reverse := by rw [hu]
    _ = l := List.reverse_reverse l

theorem pyStrip_head_false (U : PyUnicode) (s : Str) (c : Char) (t : Str)
    (h : pyStrip U s = c :: t) : U.isSpace c = false := by
  obtain ⟨u, hu⟩ := dropTrail_append_eq U.isSpace (s.dropWhile U.isSpace)
  rw [show dropTrail U.isSpace (s.dropWhile U.isSpace) = pyStrip U s from rfl,
    h] at hu
  exact dropWhile_head_false U.isSpace s c (t ++ u) (by rw [← hu]; simp)

theorem dropWhile_dropTrail (p : Char → Bool) (l : Str)
    (hl : l.dropWhile p = l) : (dropTrail p l).dropWhile p = dropTrail p l := by
  cases hd : dropTrail p l with
  | nil => simp
  | cons c t =>
    obtain ⟨u, hu⟩ := dropTrail_append_eq p l
    rw [hd] at hu
    have hc : p c = false :=
      dropWhile_head_false p l c (t ++ u) (by rw [hl, ← hu]; simp)
    rw [List.dropWhile_cons, hc]
    simp

theorem dropTrail_idem (p : Char → Bool) (l : Str) :
    dropTrail p (dropTrail p l) = dropTrail p l := by
  unfold dropTrail
  rw [List.reverse_reverse, List.dropWhile_idempotent]

theorem pyStrip_idem (U : PyUnicode) (s : Str) :
    pyStrip U (pyStrip U s) = pyStrip U s := by
  unfold pyStrip
  rw [dropWhile_dropTrail U.isSpace _ (List.dropWhile_idempotent U.isSpace s)]
  exact dropTrail_idem U.isSpace _

theorem pyStrip_nil (U : PyUnicode) : pyStrip U [] = [] := rfl

/-- Every record the reader produces has fields that are fixed points of
`pyStrip` (they were stripped at parse time). -/
theorem read_rows_stripFixed (U : PyUnicode) :
    ∀ (rows : List (List Str)) (n : Nat) (r : ProductRecord),
      r ∈ read_rows U n rows →
      pyStrip U r.product_name = r.product_name ∧
      pyStrip U r.price = r.price ∧
      pyStrip U r.category = r.category := by
  intro rows
  induction rows with
  | nil => intro n r h; simp [read_rows] at h
  | cons row rest ih =>
    intro n r h
    rw [read_rows] at h
    rcases List.mem_cons.mp h with rfl | h'
    · unfold parse_row
      split
      · exact ⟨pyStrip_nil U, pyStrip_nil U, pyStrip_nil U⟩
      · refine ⟨?_, ?_, ?_⟩ <;> simp only [] <;> split <;>
          simp [pyStrip_idem, pyStrip_nil]
    · exact ih (n + 1) r h'

/-! ## Concrete Unicode tables for witnesses -/

/-- Concrete instantiation of the runtime tables, adequate for ASCII inputs:
the only whitespace character is the space, NFKC is the identity, and
lowering is ASCII lowering. -/
def U0 : PyUnicode where
  isSpace c := c == ' '
  nfkc s := s
  lowerChar c := [c.toLower]
  nfkc_nil := rfl

/-- Degenerate tables in which NFKC maps every string to the empty string;
used to exhibit runs in which every admitted record has an empty canonical
key (such records bypass the seen-set entirely). -/
def Uz : PyUnicode where
  isSpace _ := false
  nfkc _ := []
  lowerChar _ := []
  nfkc_nil := rfl

/-! ## Claims -/

/-- C7: `detect_column_count` returns the number of non-blank cells of the
first row clamped to a minimum of 2, returns 2 when the first row is missing
or empty, and its result depends on the first row only (the remaining rows,
including all data rows after the header, are irrelevant; the function takes
no header-skipping parameter at all). -/
theorem c7_detect_column_count_first_row (U : PyUnicode)
    (first_row : List Str) (rest rest2 : List (List Str)) :
    detect_column_count U [] = 2 ∧
    detect_column_count U (first_row :: rest) =
      max ((first_row.filter (fun col => !(pyStrip U col).isEmpty)).length) 2 ∧
    detect_column_count U (first_row :: rest) =
      detect_column_count U (first_row :: rest2) := by
  refine ⟨rfl, ?_, rfl⟩
  have hred : detect_column_count U (first_row :: rest) =
      if first_row.isEmpty then 2
      else max ((first_row.filter
        (fun col => !(pyStrip U col).isEmpty)).length) 2 := rfl
  rw [hred]
  by_cases hemp : first_row.isEmpty
  · rw [if_pos hemp]
    rw [List.isEmpty_iff] at hemp
    subst hemp
    simp
  · rw [if_neg hemp]

/-- C10: a record whose name normalizes to the empty string is never
classified duplicate and leaves the detector state (seen-set and duplicate
count) completely unchanged. -/
theorem c10_empty_key_no_effect (U : PyUnicode) (d : DuplicateDetector)
    (r : ProductRecord) (h : r.normalize_name U = []) :
    d.is_duplicate U r = (false, d) := by
  unfold DuplicateDetector.is_duplicate
  simp [h]

theorem c10_empty_key_no_effect_witness :
    (ProductRecord.normalize_name ⟨[], ['5'], [], 3⟩ U0 = []) ∧
    DuplicateDetector.is_duplicate ⟨[['a']], 7⟩ U0 ⟨[], ['5'], [], 3⟩ =
      (false, ⟨[['a']], 7⟩) :=
  ⟨rfl, c10_empty_key_no_effect U0 ⟨[['a']], 7⟩ ⟨[], ['5'], [], 3⟩ rfl⟩

/-- C8 (amended): a line that parses to zero fields yields an all-empty
record that is classified as a blank row, counted in the blank counter
separately from the invalid / duplicate / admitted outcomes — but it IS also
included in the total-rows-read counter (each step increments
`total_rows_read` before classifying). -/
theorem c8_blank_line_counted (U : PyUnicode) (st : ProcState) (n : Nat) :
    parse_row U n [] =
      { product_name := [], price := [], category := [], row_number := n } ∧
    classify U st.detector.seen_products (parse_row U n []) = .blank ∧
    processStep U st (parse_row U n []) = .ok { st with stats :=
      { st.stats with
        total_rows_read := st.stats.total_rows_read + 1,
        empty_rows_skipped := st.stats.empty_rows_skipped + 1 } } := by
  have hc : classify U st.detector.seen_products (parse_row U n []) =
      .blank := by
    simp [classify, parse_row]
  refine ⟨rfl, hc, ?_⟩
  rw [processStep_eq, hc]

/-- C8 counterexample: for the input consisting of a header row and one
zero-field line, the zero-field line is included in `total_rows_read` (the
run reports 1 row read, not 0), refuting the part of the claim that says a
blank line "is not included in the count of records read". -/
theorem c8_counterexample :
    convert U0 [[['h']], []] = .ok
      { statistics :=
          { total_rows_read := 1, empty_rows_skipped := 1,
            invalid_rows_skipped := 0, duplicate_rows_skipped := 0,
            unique_products_written := 0, columns_detected := 2 },
        sheet := [] } := by rfl

/-- C5: a record whose name is empty after trimming but whose price is
non-empty is rejected as invalid: the step increments the invalid counter
(not the blank counter), admits nothing, writes nothing, and leaves the
detector's seen-set untouched.  In particular, for the input rows
`[header], ["", ""], ["", "5"]` the first data row is counted blank, the
second invalid, and zero records are admitted. -/
theorem c5_empty_name_invalid :
    (∀ (U : PyUnicode) (st : ProcState) (r : ProductRecord),
      pyStrip U r.product_name = [] → r.price ≠ [] →
      processStep U st r = .ok { st with stats :=
        { st.stats with
          total_rows_read := st.stats.total_rows_read + 1,
          invalid_rows_skipped := st.stats.invalid_rows_skipped + 1 } }) ∧
    convert U0 [[['h'], ['p']], [[], []], [[], ['5']]] = .ok
      { statistics :=
          { total_rows_read := 2, empty_rows_skipped := 1,
            invalid_rows_skipped := 1, duplicate_rows_skipped := 0,
            unique_products_written := 0, columns_detected := 2 },
        sheet := [] } := by
  constructor
  · intro U st r hstrip hprice
    have hc : classify U st.detector.seen_products r = .invalid := by
      have hv : r.is_valid U = false := by
        simp [ProductRecord.is_valid, List.isEmpty_iff, hstrip]
      simp [classify, hv, List.isEmpty_iff, hprice]
    rw [processStep_eq, hc]
  · rfl

theorem c5_empty_name_invalid_witness :
    pyStrip U0 ([] : Str) = [] ∧ (['5'] : Str) ≠ [] ∧
    processStep U0 (initState 2) ⟨[], ['5'], [], 3⟩ =
      .ok { initState 2 with stats :=
        { (initState 2).stats with
          total_rows_read := (initState 2).stats.total_rows_read + 1,
          invalid_rows_skipped :=
            (initState 2).stats.invalid_rows_skipped + 1 } } :=
  ⟨rfl, by decide,
    c5_empty_name_invalid.1 U0 (initState 2) ⟨[], ['5'], [], 3⟩ rfl
      (by decide)⟩

/-- C2: for every input on which `convert` completes, the final statistics
satisfy `total_rows_read = empty_rows_skipped + invalid_rows_skipped +
duplicate_rows_skipped + unique_products_written`: each processed record is
counted in exactly one of the four outcome counters. -/
theorem c2_counts_partition (U : PyUnicode) (rows : List (List Str))
    (out : ConvertOutput) (h : convert U rows = .ok out) :
    out.statistics.total_rows_read =
      out.statistics.empty_rows_skipped +
      out.statistics.invalid_rows_skipped +
      out.statistics.duplicate_rows_skipped +
      out.statistics.unique_products_written := by
  obtain ⟨heq, -⟩ := convert_ok_char U rows out h
  subst heq
  simpa using length_eq_counts U (read_records U rows true) []

theorem c2_counts_partition_witness :
    convert U0 [[['h'], ['p']], [['a'], ['1']], [['A'], ['2']]] = .ok
      { statistics :=
          { total_rows_read := 2, empty_rows_skipped := 0,
            invalid_rows_skipped := 0, duplicate_rows_skipped := 1,
            unique_products_written := 1, columns_detected := 2 },
        sheet := [{ col1 := ['a'], col2 := ['1'], col3 := none }] } ∧
    (2 : Nat) = 0 + 0 + 1 + 1 :=
  have h : convert U0 [[['h'], ['p']], [['a'], ['1']], [['A'], ['2']]] = .ok
      { statistics :=
          { total_rows_read := 2, empty_rows_skipped := 0,
            invalid_rows_skipped := 0, duplicate_rows_skipped := 1,
            unique_products_written := 1, columns_detected := 2 },
        sheet := [{ col1 := ['a'], col2 := ['1'], col3 := none }] } := by rfl
  ⟨h, c2_counts_partition U0 _ _ h⟩

/-- C1: in one run of the filter, if two records at positions `i < j` have
the same non-empty canonical key (same name up to the trim / NFKC / lower /
whitespace-collapse normalization) and the earlier one was admitted, the
later one is classified duplicate.  (That case-variants, whitespace-variants
and NFKC compatibility variants of a name share one canonical key is a fact
about the runtime's Unicode tables, which the model keeps abstract; the claim
states precisely that such records map to the same canonical key, which is
the hypothesis used here.) -/
theorem c1_same_key_later_duplicate (U : PyUnicode)
    (recs : List ProductRecord) (i j : Nat) (ri rj : ProductRecord)
    (hij : i < j) (hi : recs[i]? = some ri) (hj : recs[j]? = some rj)
    (hkey : ri.normalize_name U = rj.normalize_name U)
    (hne : ri.normalize_name U ≠ [])
    (hadm : (outcomes U [] recs)[i]? = some .admitted) :
    (outcomes U [] recs)[j]? = some .duplicate :=
  outcomes_later_dup U recs [] i j ri rj hij hi hj hkey
    (by rw [← hkey]; exact hne) hadm

theorem c1_same_key_later_duplicate_witness :
    (0 : Nat) < 1 ∧
    [(⟨['A', 'p', 'p', 'l', 'e'], ['1'], [], 2⟩ : ProductRecord),
      ⟨['a', 'p', 'p', 'l', 'e', ' '], ['2'], [], 3⟩][0]? =
      some ⟨['A', 'p', 'p', 'l', 'e'], ['1'], [], 2⟩ ∧
    ProductRecord.normalize_name ⟨['A', 'p', 'p', 'l', 'e'], ['1'], [], 2⟩ U0 =
      ProductRecord.normalize_name
        ⟨['a', 'p', 'p', 'l', 'e', ' '], ['2'], [], 3⟩ U0 ∧
    (outcomes U0 []
      [⟨['A', 'p', 'p', 'l', 'e'], ['1'], [], 2⟩,
       ⟨['a', 'p', 'p', 'l', 'e', ' '], ['2'], [], 3⟩])[1]? =
      some .duplicate :=
  ⟨by decide, by rfl, by rfl,
    c1_same_key_later_duplicate U0
      [⟨['A', 'p', 'p', 'l', 'e'], ['1'], [], 2⟩,
       ⟨['a', 'p', 'p', 'l', 'e', ' '], ['2'], [], 3⟩] 0 1
      ⟨['A', 'p', 'p', 'l', 'e'], ['1'], [], 2⟩
      ⟨['a', 'p', 'p', 'l', 'e', ' '], ['2'], [], 3⟩
      (by decide) (by rfl) (by rfl) (by rfl) (by decide) (by rfl)⟩

/-- C3: on every completed run the saved sheet is exactly the admitted
subsequence of the input records, written in input order (the admitted list
is a sublist of the record sequence, so no reordering happens), and every
record classified duplicate has an earlier admitted record with the same
canonical key (first occurrence wins; later matches are dropped). -/
theorem c3_admitted_order_stable (U : PyUnicode) (rows : List (List Str))
    (out : ConvertOutput) (h : convert U rows = .ok out) :
    out.sheet = (admittedList U [] (read_records U rows true)).map
      (writtenOf (detect_column_count U rows)) ∧
    List.Sublist (admittedList U [] (read_records U rows true))
      (read_records U rows true) ∧
    (∀ (j : Nat) (rj : ProductRecord),
      (read_records U rows true)[j]? = some rj →
      (outcomes U [] (read_records U rows true))[j]? = some .duplicate →
      ∃ i ri, i < j ∧ (read_records U rows true)[i]? = some ri ∧
        (outcomes U [] (read_records U rows true))[i]? = some .admitted ∧
        ri.normalize_name U = rj.normalize_name U) := by
  obtain ⟨heq, -⟩ := convert_ok_char U rows out h
  subst heq
  refine ⟨by simp, admittedList_sublist U _ [], ?_⟩
  intro j rj hj hdup
  rcases outcomes_dup_earlier U (read_records U rows true) [] j rj hj hdup
    with hmem | hex
  · simp at hmem
  · exact hex

theorem c3_admitted_order_stable_witness :
    convert U0 [[['h'], ['p']], [['b'], ['2']], [['a'], ['1']],
        [['B'], ['9']]] = .ok
      { statistics :=
          { total_rows_read := 3, empty_rows_skipped := 0,
            invalid_rows_skipped := 0, duplicate_rows_skipped := 1,
            unique_products_written := 2, columns_detected := 2 },
        sheet := [{ col1 := ['b'], col2 := ['2'], col3 := none },
                  { col1 := ['a'], col2 := ['1'], col3 := none }] } ∧
    [{ col1 := ['b'], col2 := ['2'], col3 := none },
     { col1 := ['a'], col2 := ['1'], col3 := none }] =
      (admittedList U0 [] (read_records U0 [[['h'], ['p']], [['b'], ['2']],
        [['a'], ['1']], [['B'], ['9']]] true)).map (writtenOf 2) :=
  have h : convert U0 [[['h'], ['p']], [['b'], ['2']], [['a'], ['1']],
      [['B'], ['9']]] = .ok
      { statistics :=
          { total_rows_read := 3, empty_rows_skipped := 0,
            invalid_rows_skipped := 0, duplicate_rows_skipped := 1,
            unique_products_written := 2, columns_detected := 2 },
        sheet := [{ col1 := ['b'], col2 := ['2'], col3 := none },
                  { col1 := ['a'], col2 := ['1'], col3 := none }] } := by rfl
  ⟨h, (c3_admitted_order_stable U0 _ _ h).1⟩

/-- C4 counterexample: with input data row `["a", " 10"]` the price value
reaching the output is `"10"`, while the raw input field is `" 10"`: the
value is NOT byte-for-byte equal to the input field, because the reader
trims every field (not just the name) at parse time. -/
theorem c4_counterexample :
    convert U0 [[['n'], ['p']], [['a'], [' ', '1', '0']]] = .ok
      { statistics :=
          { total_rows_read := 1, empty_rows_skipped := 0,
            invalid_rows_skipped := 0, duplicate_rows_skipped := 0,
            unique_products_written := 1, columns_detected := 2 },
        sheet := [{ col1 := ['a'], col2 := ['1', '0'], col3 := none }] } ∧
    ([' ', '1', '0'] : Str) ≠ ['1', '0'] :=
  ⟨by rfl, by decide⟩

/-- C4 (amended): the price and category values reaching the output are the
parsed record fields byte-for-byte — and parsing trims surrounding
whitespace from every field (name, price and category alike) once, at read
time; after that single trim no transformation, coercion or reformatting
occurs. -/
theorem c4_fields_verbatim_after_parse_trim (U : PyUnicode)
    (rows : List (List Str)) (out : ConvertOutput)
    (h : convert U rows = .ok out) :
    out.sheet = (admittedList U [] (read_records U rows true)).map
      (writtenOf (detect_column_count U rows)) ∧
    (∀ (n : Nat) (row : List Str), ¬row.isEmpty →
      (parse_row U n row).price =
        (if 2 ≤ row.length then pyStrip U (row.getD 1 []) else []) ∧
      (parse_row U n row).category =
        (if 3 ≤ row.length then pyStrip U (row.getD 2 []) else [])) := by
  obtain ⟨heq, -⟩ := convert_ok_char U rows out h
  subst heq
  refine ⟨by simp, ?_⟩
  intro n row hrow
  unfold parse_row
  rw [if_neg hrow]
  exact ⟨rfl, rfl⟩

theorem c4_fields_verbatim_after_parse_trim_witness :
    convert U0 [[['n'], ['p'], ['c']],
        [['x'], [' ', '7'], [' ', 'k', ' ']]] = .ok
      { statistics :=
          { total_rows_read := 1, empty_rows_skipped := 0,
            invalid_rows_skipped := 0, duplicate_rows_skipped := 0,
            unique_products_written := 1, columns_detected := 3 },
        sheet := [{ col1 := ['x'], col2 := ['7'], col3 := some ['k'] }] } ∧
    [{ col1 := ['x'], col2 := ['7'], col3 := some ['k'] }] =
      (admittedList U0 [] (read_records U0 [[['n'], ['p'], ['c']],
        [['x'], [' ', '7'], [' ', 'k', ' ']]] true)).map (writtenOf 3) :=
  have h : convert U0 [[['n'], ['p'], ['c']],
      [['x'], [' ', '7'], [' ', 'k', ' ']]] = .ok
      { statistics :=
          { total_rows_read := 1, empty_rows_skipped := 0,
            invalid_rows_skipped := 0, duplicate_rows_skipped := 0,
            unique_products_written := 1, columns_detected := 3 },
        sheet := [{ col1 := ['x'], col2 := ['7'], col3 := some ['k'] }] } :=
    by rfl
  ⟨h, (c4_fields_verbatim_after_parse_trim U0 _ _ h).1⟩

/-- C6: exceeding the sink's row limit is fatal: `write_record` raises as
soon as `current_row` exceeds `MAX_EXCEL_ROWS`, and whenever a run would
admit at least `MAX_EXCEL_ROWS` records the error propagates out of
`convert`, which returns `.error` — so the save step is never reached and no
output document exists (a saved sheet only exists in the `.ok` result). -/
theorem c6_row_limit_aborts :
    (∀ (w : ExcelWriter) (r : ProductRecord),
      MAX_EXCEL_ROWS < w.current_row →
      w.write_record r = .error "Excel row limit reached") ∧
    (∀ (U : PyUnicode) (rows : List (List Str)),
      MAX_EXCEL_ROWS ≤ (admittedList U [] (read_records U rows true)).length →
      ∃ e, convert U rows = .error e) := by
  constructor
  · intro w r hw
    unfold ExcelWriter.write_record
    rw [if_pos hw]
  · intro U rows hcap
    obtain ⟨e, he⟩ := processList_err U (read_records U rows true)
      (initState (detect_column_count U rows))
      (by simp [initState, ExcelWriter.init, MAX_EXCEL_ROWS])
      (by simp only [initState, ExcelWriter.init]; omega)
    refine ⟨e, ?_⟩
    rw [convert, processRecords,
      show (⟨{}, {}, ExcelWriter.init (detect_column_count U rows)⟩ :
        ProcState) = initState (detect_column_count U rows) from rfl, he]

theorem parse_a_Uz (n : Nat) :
    parse_row Uz n [['a']] = ⟨['a'], [], [], n⟩ := rfl

theorem classify_a_Uz (seen : List Str) (n : Nat) :
    classify Uz seen ⟨['a'], [], [], n⟩ = .admitted := by
  have hkey : ProductRecord.normalize_name (⟨['a'], [], [], n⟩ :
      ProductRecord) Uz = [] := rfl
  have hv : ProductRecord.is_valid (⟨['a'], [], [], n⟩ : ProductRecord) Uz =
      true := rfl
  simp [classify, hkey, hv]

theorem seenAfter_a_Uz (seen : List Str) (n : Nat) :
    seenAfter Uz seen ⟨['a'], [], [], n⟩ = seen := by
  unfold seenAfter
  rw [classify_a_Uz]
  rfl

theorem c6_count (k : Nat) : ∀ (n : Nat) (seen : List Str),
    (admittedList Uz seen
      (read_rows Uz n (List.replicate k [['a']]))).length = k := by
  induction k with
  | zero => intro n seen; simp [read_rows, admittedList]
  | succ k ih =>
    intro n seen
    rw [List.replicate_succ, read_rows, parse_a_Uz, admittedList,
      classify_a_Uz, seenAfter_a_Uz]
    simp [ih]

theorem c6_row_limit_aborts_witness :
    MAX_EXCEL_ROWS ≤ (admittedList Uz []
      (read_records Uz ([['h']] :: List.replicate MAX_EXCEL_ROWS [['a']])
        true)).length ∧
    ∃ e, convert Uz ([['h']] :: List.replicate MAX_EXCEL_ROWS [['a']]) =
      .error e := by
  have hread : read_records Uz
      ([['h']] :: List.replicate MAX_EXCEL_ROWS [['a']]) true =
      read_rows Uz 2 (List.replicate MAX_EXCEL_ROWS [['a']]) := rfl
  have hcount := c6_count MAX_EXCEL_ROWS 2 []
  constructor
  · rw [hread, hcount]
  · exact c6_row_limit_aborts.2 Uz _ (by rw [hread, hcount])

/-! ## Key distinctness of the admitted output (towards idempotence) -/

theorem classify_admitted_elim (U : PyUnicode) (seen : List Str)
    (r : ProductRecord) (h : classify U seen r = .admitted) :
    (r.product_name.isEmpty && r.price.isEmpty) = false ∧
    r.is_valid U = true ∧
    ¬(r.normalize_name U ≠ [] ∧ r.normalize_name U ∈ seen) := by
  unfold classify at h
  split at h
  · exact Outcome.noConfusion h
  · split at h
    · exact Outcome.noConfusion h
    · split at h
      · exact Outcome.noConfusion h
      · rename_i h1 h2 h3
        refine ⟨by simpa using h1, by simpa using h2, ?_⟩
        simpa [List.isEmpty_iff] using h3

theorem admittedList_mem_props (U : PyUnicode) :
    ∀ (recs : List ProductRecord) (seen : List Str) (r : ProductRecord),
      r ∈ admittedList U seen recs →
      (r.product_name.isEmpty && r.price.isEmpty) = false ∧
      r.is_valid U = true := by
  intro recs
  induction recs with
  | nil => intro seen r h; simp [admittedList] at h
  | cons a rs ih =>
    intro seen r h
    rw [admittedList] at h
    cases hc : classify U seen a with
    | admitted =>
      rw [hc] at h
      rcases List.mem_cons.mp h with rfl | h'
      · obtain ⟨h1, h2, -⟩ := classify_admitted_elim U seen r hc
        exact ⟨h1, h2⟩
      · exact ih _ r h'
    | blank => rw [hc] at h; exact ih _ r h
    | invalid => rw [hc] at h; exact ih _ r h
    | duplicate => rw [hc] at h; exact ih _ r h

theorem admittedList_keys_good (U : PyUnicode) :
    ∀ (recs : List ProductRecord) (seen : List Str),
      (((admittedList U seen recs).map (fun r => r.normalize_name U)).filter
        (fun k => !k.isEmpty)).Nodup ∧
      ∀ k ∈ ((admittedList U seen recs).map
          (fun r => r.normalize_name U)).filter (fun k => !k.isEmpty),
        k ∉ seen := by
  intro recs
  induction recs with
  | nil => intro seen; simp [admittedList]
  | cons a rs ih =>
    intro seen
    rw [admittedList]
    cases hc : classify U seen a with
    | blank =>
      rw [seenAfter_not_admitted U seen a (by simp [hc])]
      exact ih seen
    | invalid =>
      rw [seenAfter_not_admitted U seen a (by simp [hc])]
      exact ih seen
    | duplicate =>
      rw [seenAfter_not_admitted U seen a (by simp [hc])]
      exact ih seen
    | admitted =>
      have hsa : seenAfter U seen a =
          if (a.normalize_name U).isEmpty then seen
          else a.normalize_name U :: seen := by
        unfold seenAfter
        rw [hc]
      by_cases hke : (a.normalize_name U).isEmpty
      · rw [hsa, if_pos hke]
        have hfil : ((a :: admittedList U seen rs).map
            (fun r => r.normalize_name U)).filter (fun k => !k.isEmpty) =
            ((admittedList U seen rs).map
              (fun r => r.normalize_name U)).filter (fun k => !k.isEmpty) := by
          simp [List.filter_cons, hke]
        rw [hfil]
        exact ih seen
      · rw [hsa, if_neg hke]
        obtain ⟨hnd, hdisj⟩ := ih (a.normalize_name U :: seen)
        have hkey_not_seen : a.normalize_name U ∉ seen := by
          obtain ⟨-, -, h3⟩ := classify_admitted_elim U seen a hc
          intro hmem
          exact h3 ⟨by simpa [List.isEmpty_iff] using hke, hmem⟩
        have hfil : ((a :: admittedList U (a.normalize_name U :: seen)
            rs).map (fun r => r.normalize_name U)).filter
              (fun k => !k.isEmpty) =
            a.normalize_name U ::
            ((admittedList U (a.normalize_name U :: seen) rs).map
              (fun r => r.normalize_name U)).filter (fun k => !k.isEmpty) := by
          simp [List.filter_cons, hke]
        rw [hfil]
        constructor
        · rw [List.nodup_cons]
          exact ⟨fun hmem => (hdisj _ hmem) (List.mem_cons_self _ _), hnd⟩
        · intro k hk
          rcases List.mem_cons.mp hk with rfl | hk'
          · exact hkey_not_seen
          · intro hmem
            exact (hdisj k hk') (List.mem_cons_of_mem _ hmem)

/-- A sequence of non-blank valid records whose non-empty canonical keys are
pairwise distinct and disjoint from the current seen-set is admitted in
full, with no duplicate verdicts. -/
theorem run2_all_admitted (U : PyUnicode) :
    ∀ (B : List ProductRecord) (seen : List Str),
      (∀ r ∈ B, (r.product_name.isEmpty && r.price.isEmpty) = false ∧
        r.is_valid U = true) →
      ((B.map (fun r => r.normalize_name U)).filter
        (fun k => !k.isEmpty)).Nodup →
      (∀ k ∈ (B.map (fun r => r.normalize_name U)).filter
          (fun k => !k.isEmpty), k ∉ seen) →
      outcomes U seen B = B.map (fun _ => Outcome.admitted) ∧
      admittedList U seen B = B := by
  intro B
  induction B with
  | nil => intro seen _ _ _; exact ⟨rfl, rfl⟩
  | cons b B ih =>
    intro seen hprops hnd hdisj
    have hb := hprops b (List.mem_cons_self b B)
    have hc : classify U seen b = .admitted := by
      by_cases hke : (b.normalize_name U).isEmpty
      · simp [classify, hb.1, hb.2, hke]
      · have hmem : b.normalize_name U ∉ seen := by
          refine hdisj _ ?_
          rw [List.mem_filter]
          exact ⟨List.mem_map_of_mem _ (List.mem_cons_self b B),
            by simp [hke]⟩
        simp [classify, hb.1, hb.2, hke, hmem]
    have hsa : seenAfter U seen b =
        if (b.normalize_name U).isEmpty then seen
        else b.normalize_name U :: seen := by
      unfold seenAfter
      rw [hc]
    by_cases hke : (b.normalize_name U).isEmpty
    · have hfil : ((b :: B).map (fun r => r.normalize_name U)).filter
          (fun k => !k.isEmpty) =
          (B.map (fun r => r.normalize_name U)).filter
            (fun k => !k.isEmpty) := by
        simp [List.filter_cons, hke]
      rw [hfil] at hnd hdisj
      obtain ⟨ho, ha⟩ := ih seen (fun r hr => hprops r (List.mem_cons_of_mem b hr)) hnd hdisj
      rw [outcomes, admittedList, hc, hsa, if_pos hke, ho, ha]
      exact ⟨rfl, rfl⟩
    · have hfil : ((b :: B).map (fun r => r.normalize_name U)).filter
          (fun k => !k.isEmpty) =
          b.normalize_name U ::
          (B.map (fun r => r.normalize_name U)).filter
            (fun k => !k.isEmpty) := by
        simp [List.filter_cons, hke]
      rw [hfil] at hnd hdisj
      rw [List.nodup_cons] at hnd
      obtain ⟨hbst, hnd'⟩ := hnd
      have hdisj' : ∀ k ∈ (B.map (fun r => r.normalize_name U)).filter
          (fun k => !k.isEmpty), k ∉ b.normalize_name U :: seen := by
        intro k hk
        rw [List.mem_cons]
        rintro (rfl | hmem)
        · exact hbst hk
        · exact hdisj k (List.mem_cons_of_mem _ hk) hmem
      obtain ⟨ho, ha⟩ := ih (b.normalize_name U :: seen)
        (fun r hr => hprops r (List.mem_cons_of_mem b hr)) hnd' hdisj'
      rw [outcomes, admittedList, hc, hsa, if_neg hke, ho, ha]
      exact ⟨rfl, rfl⟩

/-- Flattening a list of singleton lists returns the original list. -/
theorem flatten_map_singleton {α : Type} :
    ∀ (l : List α), (l.map (fun c => [c])).flatten = l := by
  intro l
  induction l with
  | nil => rfl
  | cons c l ih => simp [ih]

/-- Counting any non-admitted outcome in an all-admitted trace gives zero. -/
theorem countOut_map_admitted (o : Outcome) (ho : o ≠ .admitted) :
    ∀ (B : List ProductRecord),
      countOut o (B.map (fun _ => Outcome.admitted)) = 0 := by
  intro B
  induction B with
  | nil => rfl
  | cons b B ih =>
    show (if Outcome.admitted = o then 1 else 0) +
      countOut o (B.map (fun _ => Outcome.admitted)) = 0
    rw [if_neg (Ne.symm ho), ih]

/-- Re-reading the serialized output rows reproduces the admitted records'
name and price fields exactly (the second parse re-strips fields that are
already stripped, a no-op by idempotence of `pyStrip`). -/
theorem reread_proj (U : PyUnicode) (cc : Nat) :
    ∀ (A : List ProductRecord) (n : Nat),
      (∀ r ∈ A, pyStrip U r.product_name = r.product_name ∧
        pyStrip U r.price = r.price ∧ pyStrip U r.category = r.category) →
      (read_rows U n ((A.map (writtenOf cc)).map rowOfWritten)).map
        (fun r => (r.product_name, r.price)) =
      A.map (fun r => (r.product_name, r.price)) := by
  intro A
  induction A with
  | nil => intro n _; rfl
  | cons a A ih =>
    intro n hfix
    have ha := hfix a (List.mem_cons_self a A)
    have htail := ih (n + 1) (fun r hr => hfix r (List.mem_cons_of_mem a hr))
    simp only [List.map_cons]
    rw [read_rows]
    simp only [List.map_cons]
    rw [htail]
    refine congrArg (fun p => p :: A.map (fun r => (r.product_name, r.price))) ?_
    by_cases hcc : 3 ≤ cc ∧ ¬a.category.isEmpty
    · have hrow : rowOfWritten (writtenOf cc a) =
          [a.product_name, a.price, a.category] := by
        simp [writtenOf, rowOfWritten, hcc]
      rw [hrow]
      simp [parse_row, ha.1, ha.2.1]
    · have hcol : (if 3 ≤ cc ∧ ¬a.category.isEmpty then some a.category
          else none) = none := by
        rw [if_neg hcc]
      have hrow : rowOfWritten (writtenOf cc a) =
          [a.product_name, a.price] := by
        simp only [writtenOf, rowOfWritten, hcol]
      rw [hrow]
      simp [parse_row, ha.1, ha.2.1]

/-- C9: the filter is idempotent on its own output.  Re-serializing the saved
sheet of a completed run as CSV rows under a fresh synthetic header and
running `convert` again admits every record and removes zero duplicates: the
second run reports no blank, invalid or duplicate rows, and reads and writes
exactly as many records as the first run wrote.  Moreover — under the
assumption, true of the real Unicode tables, that a name that is non-empty
after trimming has a non-empty canonical key — the canonical keys of the
first run's admitted records are pairwise distinct. -/
theorem c9_filter_idempotent (U : PyUnicode) (rows : List (List Str))
    (out : ConvertOutput) (hdr : List Str) (h : convert U rows = .ok out) :
    ∃ out2, convert U (hdr :: out.sheet.map rowOfWritten) = .ok out2 ∧
      out2.statistics.empty_rows_skipped = 0 ∧
      out2.statistics.invalid_rows_skipped = 0 ∧
      out2.statistics.duplicate_rows_skipped = 0 ∧
      out2.statistics.total_rows_read =
        out.statistics.unique_products_written ∧
      out2.statistics.unique_products_written =
        out.statistics.unique_products_written ∧
      ((∀ s, pyStrip U s ≠ [] → normalizeName U s ≠ []) →
        ((admittedList U [] (read_records U rows true)).map
          (fun r => r.normalize_name U)).Nodup) := by
  obtain ⟨heq, hcap⟩ := convert_ok_char U rows out h
  have hfixA : ∀ r ∈ admittedList U [] (read_records U rows true),
      pyStrip U r.product_name = r.product_name ∧
      pyStrip U r.price = r.price ∧ pyStrip U r.category = r.category := by
    intro r hr
    have hmem : r ∈ read_records U rows true :=
      (admittedList_sublist U (read_records U rows true) []).subset hr
    have hrr : read_records U rows true = read_rows U 2 (rows.drop 1) := rfl
    rw [hrr] at hmem
    exact read_rows_stripFixed U (rows.drop 1) 2 r hmem
  have hproj := reread_proj U (detect_column_count U rows)
    (admittedList U [] (read_records U rows true)) 2 hfixA
  have hnames : (read_rows U 2
      (((admittedList U [] (read_records U rows true)).map
        (writtenOf (detect_column_count U rows))).map rowOfWritten)).map
      (fun r => r.product_name) =
      (admittedList U [] (read_records U rows true)).map
        (fun r => r.product_name) := by
    have h1 := congrArg (List.map Prod.fst) hproj
    simpa [List.map_map, Function.comp] using h1
  have hkeys : (read_rows U 2
      (((admittedList U [] (read_records U rows true)).map
        (writtenOf (detect_column_count U rows))).map rowOfWritten)).map
      (fun r => r.normalize_name U) =
      (admittedList U [] (read_records U rows true)).map
        (fun r => r.normalize_name U) := by
    have h1 := congrArg (List.map (normalizeName U)) hnames
    simpa [List.map_map, Function.comp, ProductRecord.normalize_name] using h1
  have hlen : (read_rows U 2
      (((admittedList U [] (read_records U rows true)).map
        (writtenOf (detect_column_count U rows))).map rowOfWritten)).length =
      (admittedList U [] (read_records U rows true)).length := by
    have h1 := congrArg List.length hproj
    simpa using h1
  have hprops : ∀ r ∈ read_rows U 2
      (((admittedList U [] (read_records U rows true)).map
        (writtenOf (detect_column_count U rows))).map rowOfWritten),
      (r.product_name.isEmpty && r.price.isEmpty) = false ∧
      r.is_valid U = true := by
    intro r hr
    have hpair : (r.product_name, r.price) ∈ (read_rows U 2
        (((admittedList U [] (read_records U rows true)).map
          (writtenOf (detect_column_count U rows))).map rowOfWritten)).map
        (fun r => (r.product_name, r.price)) :=
      List.mem_map_of_mem _ hr
    rw [hproj] at hpair
    obtain ⟨a, haA, hpa⟩ := List.mem_map.mp hpair
    obtain ⟨h1, h2⟩ :=
      admittedList_mem_props U (read_records U rows true) [] a haA
    have hname : a.product_name = r.product_name := congrArg Prod.fst hpa
    have hprice : a.price = r.price := congrArg Prod.snd hpa
    constructor
    · rw [← hname, ← hprice]
      exact h1
    · unfold ProductRecord.is_valid at h2 ⊢
      rw [← hname]
      exact h2
  have hnd2 : (((read_rows U 2
      (((admittedList U [] (read_records U rows true)).map
        (writtenOf (detect_column_count U rows))).map rowOfWritten)).map
      (fun r => r.normalize_name U)).filter (fun k => !k.isEmpty)).Nodup := by
    rw [hkeys]
    exact (admittedList_keys_good U (read_records U rows true) []).1
  obtain ⟨hout2, hadm2⟩ := run2_all_admitted U (read_rows U 2
      (((admittedList U [] (read_records U rows true)).map
        (writtenOf (detect_column_count U rows))).map rowOfWritten)) []
    hprops hnd2 (by intro k hk; simp)
  have hread2 : read_records U (hdr :: out.sheet.map rowOfWritten) true =
      read_rows U 2
      (((admittedList U [] (read_records U rows true)).map
        (writtenOf (detect_column_count U rows))).map rowOfWritten) := by
    rw [heq]
    rfl
  have hcap2 : 2 + (admittedList U []
      (read_records U (hdr :: out.sheet.map rowOfWritten) true)).length ≤
      MAX_EXCEL_ROWS + 1 := by
    rw [hread2, hadm2, hlen]
    exact hcap
  obtain ⟨out2, hconv2⟩ :
      ∃ o, convert U (hdr :: out.sheet.map rowOfWritten) = .ok o := by
    cases hcv : convert U (hdr :: out.sheet.map rowOfWritten) with
    | ok o => exact ⟨o, rfl⟩
    | error e =>
      exfalso
      have hok := processList_ok_eq U
        (read_records U (hdr :: out.sheet.map rowOfWritten) true)
        (initState (detect_column_count U
          (hdr :: out.sheet.map rowOfWritten)))
        (by simpa [initState, ExcelWriter.init] using hcap2)
      rw [convert, processRecords,
        show (⟨{}, {}, ExcelWriter.init (detect_column_count U
            (hdr :: out.sheet.map rowOfWritten))⟩ : ProcState) =
          initState (detect_column_count U
            (hdr :: out.sheet.map rowOfWritten)) from rfl, hok] at hcv
      exact Except.noConfusion hcv
  obtain ⟨heq2, -⟩ :=
    convert_ok_char U (hdr :: out.sheet.map rowOfWritten) out2 hconv2
  refine ⟨out2, hconv2, ?_, ?_, ?_, ?_, ?_, ?_⟩
  · rw [heq2]
    show countOut .blank (outcomes U []
      (read_records U (hdr :: out.sheet.map rowOfWritten) true)) = 0
    rw [hread2, hout2]
    exact countOut_map_admitted .blank (by decide) _
  · rw [heq2]
    show countOut .invalid (outcomes U []
      (read_records U (hdr :: out.sheet.map rowOfWritten) true)) = 0
    rw [hread2, hout2]
    exact countOut_map_admitted .invalid (by decide) _
  · rw [heq2]
    show countOut .duplicate (outcomes U []
      (read_records U (hdr :: out.sheet.map rowOfWritten) true)) = 0
    rw [hread2, hout2]
    exact countOut_map_admitted .duplicate (by decide) _
  · rw [heq2]
    show (read_records U (hdr :: out.sheet.map rowOfWritten) true).length =
      out.statistics.unique_products_written
    rw [hread2, hlen, heq]
  · rw [heq2]
    show (admittedList U []
      (read_records U (hdr :: out.sheet.map rowOfWritten) true)).length =
      out.statistics.unique_products_written
    rw [hread2, hadm2, hlen, heq]
  · intro hU
    have hall : ∀ k ∈ (admittedList U [] (read_records U rows true)).map
        (fun r => r.normalize_name U), (!k.isEmpty) = true := by
      intro k hk
      obtain ⟨a, haA, rfl⟩ := List.mem_map.mp hk
      obtain ⟨-, h2⟩ :=
        admittedList_mem_props U (read_records U rows true) [] a haA
      have hstrip : pyStrip U a.product_name ≠ [] := by
        simpa [ProductRecord.is_valid, List.isEmpty_iff] using h2
      have hkey := hU a.product_name hstrip
      simpa [ProductRecord.normalize_name, List.isEmpty_iff] using hkey
    have hfe : ((admittedList U [] (read_records U rows true)).map
        (fun r => r.normalize_name U)).filter (fun k => !k.isEmpty) =
        (admittedList U [] (read_records U rows true)).map
          (fun r => r.normalize_name U) := List.filter_eq_self.mpr hall
    rw [← hfe]
    exact (admittedList_keys_good U (read_records U rows true) []).1

/-- A further concrete table (identity lowering) used for the idempotence
witness. -/
def U1 : PyUnicode where
  isSpace c := c == ' '
  nfkc s := s
  lowerChar c := [c]
  nfkc_nil := rfl

theorem pySplitAux_acc_ne (U : PyUnicode) :
    ∀ (l acc : Str), acc ≠ [] →
      ∃ w ws, pySplitAux U l acc = w :: ws ∧ w ≠ [] := by
  intro l
  induction l with
  | nil =>
    intro acc hacc
    refine ⟨acc.reverse, [], ?_, by simpa using hacc⟩
    simp [pySplitAux, hacc]
  | cons c l ih =>
    intro acc hacc
    by_cases hsp : U.isSpace c
    · refine ⟨acc.reverse, pySplitAux U l [], ?_, by simpa using hacc⟩
      simp [pySplitAux, hsp, hacc]
    · obtain ⟨w, ws, hw, hwne⟩ := ih (c :: acc) (by simp)
      refine ⟨w, ws, ?_, hwne⟩
      simp [pySplitAux, hsp, hw]

theorem joinSpace_ne_nil (w : Str) (ws : List Str) (hw : w ≠ []) :
    joinSpace (w :: ws) ≠ [] := by
  cases ws with
  | nil => simpa [joinSpace] using hw
  | cons w2 ws => simp [joinSpace]

/-- Under the `U1` tables, a string that is non-empty after trimming has a
non-empty canonical key. -/
theorem U1_strip_key : ∀ s : Str, pyStrip U1 s ≠ [] →
    normalizeName U1 s ≠ [] := by
  intro s h
  have hs : ¬s.isEmpty := by
    intro hse
    rw [List.isEmpty_iff] at hse
    subst hse
    exact h (pyStrip_nil U1)
  obtain ⟨c, t, hct⟩ : ∃ c t, pyStrip U1 s = c :: t := by
    cases hd : pyStrip U1 s with
    | nil => exact absurd hd h
    | cons c t => exact ⟨c, t, rfl⟩
  have hc : U1.isSpace c = false := pyStrip_head_false U1 s c t hct
  unfold normalizeName
  rw [if_neg hs]
  have hmap : ((U1.nfkc (pyStrip U1 s)).map U1.lowerChar).flatten =
      pyStrip U1 s := by
    show ((pyStrip U1 s).map (fun c => [c])).flatten = pyStrip U1 s
    exact flatten_map_singleton _
  rw [hmap, hct]
  have hsplit : pySplit U1 (c :: t) = pySplitAux U1 t [c] := by
    simp [pySplit, pySplitAux, hc]
  rw [hsplit]
  obtain ⟨w, ws, hw, hwne⟩ := pySplitAux_acc_ne U1 t [c] (by simp)
  rw [hw]
  exact joinSpace_ne_nil w ws hwne

theorem c9_filter_idempotent_witness :
    convert U1 [[['h'], ['p']], [['a'], ['1']], [['a'], ['2']],
      [['b'], ['3']]] = .ok
      { statistics :=
          { total_rows_read := 3, empty_rows_skipped := 0,
            invalid_rows_skipped := 0, duplicate_rows_skipped := 1,
            unique_products_written := 2, columns_detected := 2 },
        sheet := [{ col1 := ['a'], col2 := ['1'], col3 := none },
                  { col1 := ['b'], col2 := ['3'], col3 := none }] } ∧
    (∃ out2, convert U1 ([['x']] ::
        ([({ col1 := ['a'], col2 := ['1'], col3 := none } : WrittenRow),
           { col1 := ['b'], col2 := ['3'], col3 := none }].map
          rowOfWritten)) = .ok out2 ∧
      out2.statistics.duplicate_rows_skipped = 0 ∧
      out2.statistics.unique_products_written = 2) ∧
    ((admittedList U1 [] (read_records U1 [[['h'], ['p']], [['a'], ['1']],
        [['a'], ['2']], [['b'], ['3']]] true)).map
      (fun r => r.normalize_name U1)).Nodup := by
  have h : convert U1 [[['h'], ['p']], [['a'], ['1']], [['a'], ['2']],
      [['b'], ['3']]] = .ok
      { statistics :=
          { total_rows_read := 3, empty_rows_skipped := 0,
            invalid_rows_skipped := 0, duplicate_rows_skipped := 1,
            unique_products_written := 2, columns_detected := 2 },
        sheet := [{ col1 := ['a'], col2 := ['1'], col3 := none },
                  { col1 := ['b'], col2 := ['3'], col3 := none }] } := by rfl
  obtain ⟨out2, hc2, he2, hi2, hd2, ht2, hw2, hnd⟩ :=
    c9_filter_idempotent U1 _ _ [['x']] h
  refine ⟨h, ⟨out2, hc2, hd2, ?_⟩, hnd U1_strip_key⟩
  rw [hw2]
